import Mathlib

/-!
Verification of the injector repository (a C++ dependency-injection
registry) against its natural-language specification.

The embedding models the registry (class Injector in
include/injector/injector.hpp) as a state-passing program over a
Binding Table.  Instances are identified by natural numbers; a C++
std::shared_ptr value is an Option Nat (none = null).  Recursive
resolution (ConstructorFactory -> ConstructorArgumentResolver ->
Injector::get) is bounded by an explicit fuel parameter; only the
single-instance retrieval function recurses on fuel, so every
definition is executable and reduces in the kernel.

The files include/injector/detail/storage.hpp, factory.hpp,
provider.hpp and include/injector/traits.hpp are declared in the build
file but their text is not part of the sources available here; the
behavior of InstanceStorage, SingletonInstanceStorage and the three
Factory variants is modelled from the specification (sections 4.2 and
4.3), as marked on each definition.
-/

namespace Injector

/-- Error outcomes of retrieval: componentCreation models the C++
ComponentCreationException thrown by Injector::get (injector.hpp line
322); fuel models stack exhaustion from unbounded recursive
resolution, which the spec documents as an unclassified limitation. -/
inductive Err
  | componentCreation
  | fuel
deriving DecidableEq, Repr

/-- Factory variants (injector.hpp uses ConstantFactory,
FunctionFactory, ConstructorFactory from detail/factory.hpp; the file
itself is absent, so the variants carry just the data the spec section
4.2 says they hold).  A function factory is identified by a natural
number naming the caller-supplied callable; a constructor factory
names the concrete type it default-constructs. -/
inductive FactoryK
  | constant (data : Option Nat)
  | function (fnId : Nat)
  | ctor (ty : Nat)
deriving DecidableEq, Repr

/-- Modelled from the spec: detail/storage.hpp and detail/provider.hpp
are absent from the sources.  A provider (one entry of the binding
table) is the composition ComponentProvider over InstanceStorage over
Factory.  Per spec section 4.3, transient storage has no cache;
singleton storage has a cache slot that is initially absent and, once
written, is returned on every later call even when the cached value is
null.  The cache field is meaningful only when singleton is true.
Casting versus non-casting providers share the produced instance
(spec section 4.4), so the cast does not change instance identity and
is not represented. -/
structure Prov where
  singleton : Bool
  factory : FactoryK
  cache : Option (Option Nat)
deriving DecidableEq, Repr

/-- External environment, fixed during a run: the behavior of every
caller-supplied factory callable (fn f k = result of the k-th
invocation of callable f), and the constructor parameter-type list of
every type (the compile-time metadata the ConstructorArgumentResolver
inspects). -/
structure Env where
  fn : Nat → Nat → Option Nat
  ctorParams : Nat → List Nat

/-- Whether a factory is the constructor variant (the only variant
whose build recursively resolves through the registry). -/
def FactoryK.isCtor : FactoryK → Bool
  | .ctor _ => true
  | _ => false

/-- Mutable state of one Injector plus the outside world: the binding
table m_Registrations (injector.hpp line 418) as an association list
from type identity to the insertion-ordered provider list; the
per-callable invocation counters; and a counter supplying fresh
instance identities for constructed objects. -/
structure S where
  table : List (Nat × List Prov)
  calls : List (Nat × Nat)
  fresh : Nat
deriving DecidableEq, Repr

/-- Association-list lookup, the model of unordered_map::find. -/
def alookup {α : Type} : List (Nat × α) → Nat → Option α
  | [], _ => none
  | (k, v) :: rest, t => if k = t then some v else alookup rest t

/-- Append a provider to the list of a key, creating the key when
absent: the model of m_Registrations[id].push_back (injector.hpp
lines 408 and 415). -/
def tableAppend : List (Nat × List Prov) → Nat → Prov → List (Nat × List Prov)
  | [], t, p => [(t, [p])]
  | (k, l) :: rest, t, p =>
    if k = t then (k, l ++ [p]) :: rest
    else (k, l) :: tableAppend rest t p

/-- Replace the last provider of the list at a key: write-back of the
in-place mutation that provider->get performs on the provider that
get_unchecked selected with it->second.back(). -/
def tableSetLast : List (Nat × List Prov) → Nat → Prov → List (Nat × List Prov)
  | [], _, _ => []
  | (k, l) :: rest, t, p =>
    if k = t then (k, l.dropLast ++ [p]) :: rest
    else (k, l) :: tableSetLast rest t p

/-- Replace the provider at an index of the list at a key: write-back
of the in-place mutation performed while the vector overload of get
iterates the provider list. -/
def tableSetAt : List (Nat × List Prov) → Nat → Nat → Prov → List (Nat × List Prov)
  | [], _, _, _ => []
  | (k, l) :: rest, t, i, p =>
    if k = t then (k, l.set i p) :: rest
    else (k, l) :: tableSetAt rest t i p

/-- Number of times a callable has been invoked so far. -/
def fnCount (cs : List (Nat × Nat)) (f : Nat) : Nat :=
  (alookup cs f).getD 0

/-- Record one more invocation of a callable. -/
def bumpCalls : List (Nat × Nat) → Nat → List (Nat × Nat)
  | [], f => [(f, 1)]
  | (k, c) :: rest, f =>
    if k = f then (k, c + 1) :: rest
    else (k, c) :: bumpCalls rest f

/-- Injector::contains (injector.hpp lines 378 to 382): true exactly
when find on the binding table succeeds.  It is a pure function of the
state, mirroring the const noexcept member: it cannot modify the
table, construct an instance, or throw. -/
def contains (s : S) (t : Nat) : Bool :=
  (alookup s.table t).isSome

/-- Common tail of every registration overload (injector.hpp
add_registration, lines 402 to 416): wrap the storage in a provider
and append it to the provider list of the target identity. -/
def addRegistration (t : Nat) (p : Prov) (s : S) : S :=
  { s with table := tableAppend s.table t p }

/-- Injector::add<T> (lines 32 to 39): transient storage over a
constructor factory for T. -/
def add (t : Nat) (s : S) : S :=
  addRegistration t ⟨false, .ctor t, none⟩ s

/-- Injector::add<Base, Derived> (lines 63 to 70). -/
def addBD (b d : Nat) (s : S) : S :=
  addRegistration b ⟨false, .ctor d, none⟩ s

/-- Injector::add_singleton<T> (lines 94 to 101). -/
def add_singleton (t : Nat) (s : S) : S :=
  addRegistration t ⟨true, .ctor t, none⟩ s

/-- Injector::add_singleton<Base, Derived> (lines 125 to 132). -/
def add_singletonBD (b d : Nat) (s : S) : S :=
  addRegistration b ⟨true, .ctor d, none⟩ s

/-- Injector::add<T>(fn) (lines 156 to 163): transient storage over a
function factory. -/
def addFn (t fid : Nat) (s : S) : S :=
  addRegistration t ⟨false, .function fid, none⟩ s

/-- Injector::add<Base, Derived>(fn) (lines 188 to 195). -/
def addFnBD (b fid : Nat) (s : S) : S :=
  addRegistration b ⟨false, .function fid, none⟩ s

/-- Injector::add_singleton<T>(fn) (lines 220 to 227): singleton
storage over a function factory. -/
def add_singletonFn (t fid : Nat) (s : S) : S :=
  addRegistration t ⟨true, .function fid, none⟩ s

/-- Injector::add_singleton<Base, Derived>(fn) (lines 252 to 259). -/
def add_singletonFnBD (b fid : Nat) (s : S) : S :=
  addRegistration b ⟨true, .function fid, none⟩ s

/-- Injector::add<Base, Derived>(data) (lines 286 to 293): a constant
factory wrapped, per the source, in the transient InstanceStorage. -/
def addConstBD (b : Nat) (data : Option Nat) (s : S) : S :=
  addRegistration b ⟨false, .constant data, none⟩ s

/-- Injector::try_add<T> (lines 48 to 55). -/
def try_add (t : Nat) (s : S) : S :=
  if contains s t then s else add t s

/-- Injector::try_add<Base, Derived> (lines 80 to 87). -/
def try_addBD (b d : Nat) (s : S) : S :=
  if contains s b then s else addBD b d s

/-- Injector::try_add_singleton<T> (lines 110 to 117). -/
def try_add_singleton (t : Nat) (s : S) : S :=
  if contains s t then s else add_singleton t s

/-- Injector::try_add_singleton<Base, Derived> (lines 141 to 148). -/
def try_add_singletonBD (b d : Nat) (s : S) : S :=
  if contains s b then s else add_singletonBD b d s

/-- Injector::try_add<T>(fn) (lines 172 to 179). -/
def try_addFn (t fid : Nat) (s : S) : S :=
  if contains s t then s else addFn t fid s

/-- Injector::try_add<Base, Derived>(fn) (lines 205 to 212). -/
def try_addFnBD (b fid : Nat) (s : S) : S :=
  if contains s b then s else addFnBD b fid s

/-- Injector::try_add_singleton<T>(fn) (lines 236 to 243). -/
def try_add_singletonFn (t fid : Nat) (s : S) : S :=
  if contains s t then s else add_singletonFn t fid s

/-- Injector::try_add_singleton<Base, Derived>(fn) (lines 269 to
276). -/
def try_add_singletonFnBD (b fid : Nat) (s : S) : S :=
  if contains s b then s else add_singletonFnBD b fid s

/-- Injector::try_add<Base, Derived>(data) (lines 304 to 311). -/
def try_addConstBD (b : Nat) (data : Option Nat) (s : S) : S :=
  if contains s b then s else addConstBD b data s

/-- A resolver is single-instance retrieval at one fuel level lower,
passed to the non-recursive layers so that only getT recurses. -/
def Resolver : Type :=
  Nat → S → Except Err Nat × S

/-- Recursive resolution of a constructor parameter-type list: the
ConstructorArgumentResolver (detail/argument_resolver.hpp, lines 37 to
54) requests each parameter type from the same registry through
Injector::get.  An exception from a nested get propagates and stops
the remaining parameters. -/
def resolveParamsW (get1 : Resolver) : List Nat → S → Except Err (List Nat) × S
  | [], s => (.ok [], s)
  | p :: ps, s =>
    match get1 p s with
    | (.ok v, s1) =>
      match resolveParamsW get1 ps s1 with
      | (.ok vs, s2) => (.ok (v :: vs), s2)
      | (.error e, s2) => (.error e, s2)
    | (.error e, s1) => (.error e, s1)

/-- Factory::build.  Modelled from the spec (section 4.2,
detail/factory.hpp absent): a constant factory returns the stored
instance unchanged; a function factory invokes the caller-supplied
callable once and returns whatever it returns, null included, with no
validation; a constructor factory resolves every constructor
parameter through the argument resolver and then constructs a fresh
instance (construction itself never yields null). -/
def buildW (env : Env) (get1 : Resolver) (k : FactoryK) (s : S) :
    Except Err (Option Nat) × S :=
  match k with
  | .constant d => (.ok d, s)
  | .function fid =>
    (.ok (env.fn fid (fnCount s.calls fid)), { s with calls := bumpCalls s.calls fid })
  | .ctor ty =>
    match resolveParamsW get1 (env.ctorParams ty) s with
    | (.ok _, s1) => (.ok (some s1.fresh), { s1 with fresh := s1.fresh + 1 })
    | (.error e, s1) => (.error e, s1)

/-- InstanceStorage::get and SingletonInstanceStorage::get.  Modelled
from the spec (section 4.3, detail/storage.hpp absent): transient
storage invokes the factory on every call and never caches; singleton
storage returns the cached value when the cache slot has been written,
null included and with no retry, and otherwise invokes the factory
once and writes the slot.  The possibly-updated provider is returned
so the caller can write it back into the table. -/
def provGetW (env : Env) (get1 : Resolver) (p : Prov) (s : S) :
    Except Err (Option Nat) × Prov × S :=
  if p.singleton then
    match p.cache with
    | some r => (.ok r, p, s)
    | none =>
      match buildW env get1 p.factory s with
      | (.ok v, s1) => (.ok v, { p with cache := some v }, s1)
      | (.error e, s1) => (.error e, p, s1)
  else
    match buildW env get1 p.factory s with
    | (r, s1) => (r, p, s1)

/-- Injector::get_unchecked (injector.hpp lines 385 to 400): look the
requested identity up in the binding table; when found, select the
last-registered provider (it->second.back()) and call its get, writing
the possibly-mutated provider back in place; when not found, fall back
to building with a constructor factory for the requested type.  The
source never reaches back() on an empty list (every key is created
with one provider and providers are never removed); the model sends
that unreachable case through the same fallback. -/
def getUncheckedW (env : Env) (get1 : Resolver) (t : Nat) (s : S) :
    Except Err (Option Nat) × S :=
  match alookup s.table t with
  | some provs =>
    match provs.getLast? with
    | some p =>
      match provGetW env get1 p s with
      | (r, p1, s1) => (r, { s1 with table := tableSetLast s1.table t p1 })
    | none => buildW env get1 (.ctor t) s
  | none => buildW env get1 (.ctor t) s

/-- Injector::get<T> for a plain type (injector.hpp lines 314 to 326):
call get_unchecked and throw ComponentCreationException exactly when
the produced instance is null; otherwise return the non-null instance.
Fuel bounds the recursion depth of constructor-argument resolution. -/
def getT (env : Env) : Nat → Nat → S → Except Err Nat × S
  | 0, _, s => (.error .fuel, s)
  | f + 1, t, s =>
    match getUncheckedW env (getT env f) t s with
    | (.error e, s1) => (.error e, s1)
    | (.ok none, s1) => (.error .componentCreation, s1)
    | (.ok (some v), s1) => (.ok v, s1)

/-- Injector::get_unchecked at a given fuel level, with the recursive
resolver instantiated the way get<T> at fuel one higher uses it. -/
def getUnchecked (env : Env) (f t : Nat) (s : S) : Except Err (Option Nat) × S :=
  getUncheckedW env (getT env f) t s

/-- Factory build at a given fuel level. -/
def build (env : Env) (f : Nat) (k : FactoryK) (s : S) : Except Err (Option Nat) × S :=
  buildW env (getT env f) k s

/-- Loop body of the vector overload of get (injector.hpp lines 356 to
364): invoke every provider of the entry in insertion order, pushing
each produced instance, null included and unchecked, and writing each
possibly-mutated provider back at its index.  A propagating exception
stops the loop. -/
def runProvsW (env : Env) (get1 : Resolver) (t : Nat) :
    Nat → List Prov → S → Except Err (List (Option Nat)) × S
  | _, [], s => (.ok [], s)
  | i, p :: ps, s =>
    match provGetW env get1 p s with
    | (.ok v, p1, s1) =>
      match runProvsW env get1 t (i + 1) ps { s1 with table := tableSetAt s1.table t i p1 } with
      | (.ok vs, s2) => (.ok (v :: vs), s2)
      | (.error e, s2) => (.error e, s2)
    | (.error e, p1, s1) =>
      (.error e, { s1 with table := tableSetAt s1.table t i p1 })

/-- Injector::get<std::vector<T>> (injector.hpp lines 344 to 368):
when the identity has an entry, produce the instances of all its
providers in registration order; when it has none, return the empty
vector with no fallback construction and no error. -/
def getVec (env : Env) (f t : Nat) (s : S) : Except Err (List (Option Nat)) × S :=
  match alookup s.table t with
  | some provs => runProvsW env (getT env f) t 0 provs s
  | none => (.ok [], s)

/-- N consecutive single-instance retrievals of one type, collecting
the outcome of each. -/
def iterGet (env : Env) : Nat → Nat → Nat → S → List (Except Err Nat) × S
  | 0, _, _, s => ([], s)
  | n + 1, f, t, s =>
    match getT env f t s with
    | (r, s1) =>
      match iterGet env n f t s1 with
      | (rs, s2) => (r :: rs, s2)

/-- Outcome of get<T> as a function of the instance the selected
provider produced: null raises component creation, non-null is
returned. -/
def toRes : Option Nat → Except Err Nat
  | some v => .ok v
  | none => .error .componentCreation

/-- The empty Injector: default-constructed, no registrations, no
callable yet invoked, no instance yet constructed. -/
def S0 : S := ⟨[], [], 0⟩

/-- Well-formedness of a state: every key of the binding table holds
at least one provider.  Every reachable state satisfies this, because
a key is only ever created together with its first provider and
providers are never removed. -/
def WF (s : S) : Prop :=
  ∀ e ∈ s.table, e.2 ≠ []

/-- C++ type expressions as they appear in the template argument of
Injector::get and in the SFINAE guards of its overloads.  base n is a
class type; constQ t is const t; ref t is the reference t&; sharedPtr
and vec are std::shared_ptr and std::vector applications.  The two
trait constructors are the class types std::remove_reference<t> and
std::remove_const<t> themselves, NOT their nested ::type member: the
source of the const-reference overload (injector.hpp lines 337 to 342)
writes the traits without ::type, so the types it actually names are
these trait classes. -/
inductive Ty
  | base (n : Nat)
  | constQ (t : Ty)
  | ref (t : Ty)
  | sharedPtr (t : Ty)
  | vec (t : Ty)
  | traitRemoveReference (t : Ty)
  | traitRemoveConst (t : Ty)
deriving DecidableEq, Repr

/-- Modelled from the spec: traits.hpp is absent from the sources; the
standard pattern for a vector-detection trait matches the exact
template std::vector and nothing else, in particular no reference or
const stripping. -/
def is_vector_v : Ty → Bool
  | .vec _ => true
  | _ => false

/-- Modelled from the spec: traits.hpp is absent; the shared_ptr
detection trait matches the exact template std::shared_ptr. -/
def is_shared_v : Ty → Bool
  | .sharedPtr _ => true
  | _ => false

/-- std::is_reference_v: true exactly for reference types. -/
def is_reference_v : Ty → Bool
  | .ref _ => true
  | _ => false

/-- std::is_const_v: true exactly for const-qualified types.  A trait
class such as std::remove_reference<T> is an ordinary non-const class
type, so it is false on the trait constructors. -/
def is_const_v : Ty → Bool
  | .constQ _ => true
  | _ => false

/-- element_type member of a shared_ptr type (defaulted elsewhere; the
guards that use it are false there). -/
def elementType : Ty → Ty
  | .sharedPtr e => e
  | t => t

/-- value_type member of a vector type (defaulted elsewhere; the
guards that use it are false there). -/
def valueType : Ty → Ty
  | .vec e => e
  | t => t

/-- Guard of the plain single-instance overload of Injector::get
(line 315). -/
def guardSingle (t : Ty) : Bool :=
  !is_vector_v t && !is_shared_v t

/-- Guard of the shared_ptr overload of Injector::get (line 330). -/
def guardShared (t : Ty) : Bool :=
  !is_vector_v t && is_shared_v t

/-- Guard of the const-reference overload of Injector::get, exactly as
written in the source (line 338): std::is_reference_v<T> conjoined
with std::is_const_v<typename std::remove_reference<T>> — the operand
of is_const_v is the trait class itself because the source omits
::type. -/
def guardConstRef (t : Ty) : Bool :=
  is_reference_v t && is_const_v (.traitRemoveReference t)

/-- Guard of the vector overload of Injector::get (line 346). -/
def guardVec (t : Ty) : Bool :=
  is_vector_v t && !is_shared_v (valueType t)

/-- Guard of the vector-of-shared_ptr overload of Injector::get
(line 372). -/
def guardVecShared (t : Ty) : Bool :=
  is_vector_v t && is_shared_v (valueType t)

/-- Which overload a viable guard selects, together with the template
argument of the delegated call its body performs. -/
inductive Overload
  | single
  | sharedDelegate (elem : Ty)
  | constRefDelegate (target : Ty)
  | collection
  | collectionDelegate (elem : Ty)
deriving DecidableEq, Repr

/-- Overload resolution for a call get<t>(): the list of overloads
whose enable_if guard is satisfied, in declaration order.  The
const-reference overload body delegates, as written in the source, to
get<std::remove_reference<std::remove_const<T>>> — again the trait
classes, since ::type is absent (lines 339 to 341). -/
def viableOverloads (t : Ty) : List Overload :=
  (if guardSingle t then [Overload.single] else []) ++
    (if guardShared t then [Overload.sharedDelegate (elementType t)] else []) ++
      (if guardConstRef t
        then [Overload.constRefDelegate (.traitRemoveReference (.traitRemoveConst t))]
        else []) ++
        (if guardVec t then [Overload.collection] else []) ++
          (if guardVecShared t then [Overload.collectionDelegate (elementType (valueType t))] else [])

/-- Instantiating std::shared_ptr<T> is well-formed only for
non-reference T: the plain single-instance overload returns
std::shared_ptr<T>, which is ill-formed when T is a reference type. -/
def sharedPtrInstantiable : Ty → Bool
  | .ref _ => false
  | _ => true

/-- Per-key skeleton of a binding table: each key together with how
many providers it holds.  Retrieval may rewrite a provider in place
(singleton cache fill) but never adds or removes providers, which is
exactly preservation of the skeleton. -/
def tskel (tbl : List (Nat × List Prov)) : List (Nat × Nat) :=
  tbl.map (fun e => (e.1, e.2.length))

theorem alookup_mem {α : Type} {tbl : List (Nat × α)} {t : Nat} {l : α}
    (h : alookup tbl t = some l) : (t, l) ∈ tbl := by
  induction tbl with
  | nil => simp [alookup] at h
  | cons e rest ih =>
    obtain ⟨k, v⟩ := e
    by_cases hk : k = t
    · subst hk
      simp [alookup] at h
      subst h
      exact List.mem_cons_self _ _
    · simp [alookup, hk] at h
      exact List.mem_cons_of_mem _ (ih h)

theorem tableSetLast_self {tbl : List (Nat × List Prov)} {t : Nat}
    {l : List Prov} {p : Prov} (h : alookup tbl t = some (l ++ [p])) :
    tableSetLast tbl t p = tbl := by
  induction tbl with
  | nil => simp [alookup] at h
  | cons e rest ih =>
    obtain ⟨k, v⟩ := e
    by_cases hk : k = t
    · subst hk
      simp [alookup] at h
      simp [tableSetLast, h, List.dropLast_concat]
    · simp [alookup, hk] at h
      simp [tableSetLast, hk, ih h]

theorem alookup_tableSetLast_self {tbl : List (Nat × List Prov)} {t : Nat}
    {l : List Prov} (p : Prov) (h : alookup tbl t = some l) :
    alookup (tableSetLast tbl t p) t = some (l.dropLast ++ [p]) := by
  induction tbl with
  | nil => simp [alookup] at h
  | cons e rest ih =>
    obtain ⟨k, v⟩ := e
    by_cases hk : k = t
    · subst hk
      simp [alookup] at h
      subst h
      simp [tableSetLast, alookup]
    · simp [alookup, hk] at h
      simp [tableSetLast, alookup, hk, ih h]

theorem fnCount_bumpCalls_self (cs : List (Nat × Nat)) (f : Nat) :
    fnCount (bumpCalls cs f) f = fnCount cs f + 1 := by
  induction cs with
  | nil => simp [bumpCalls, fnCount, alookup]
  | cons e rest ih =>
    obtain ⟨k, c⟩ := e
    by_cases hk : k = f
    · subst hk
      simp [bumpCalls, fnCount, alookup]
    · simp [bumpCalls, fnCount, alookup, hk] at ih ⊢
      exact ih

theorem fnCount_bumpCalls_other {g f : Nat} (cs : List (Nat × Nat))
    (hg : g ≠ f) : fnCount (bumpCalls cs f) g = fnCount cs g := by
  have hfg : f ≠ g := Ne.symm hg
  induction cs with
  | nil => simp [bumpCalls, fnCount, alookup, hfg]
  | cons e rest ih =>
    obtain ⟨k, c⟩ := e
    by_cases hk : k = f
    · subst hk
      simp [bumpCalls, fnCount, alookup, hfg]
    · by_cases hg2 : k = g
      · subst hg2
        simp [bumpCalls, fnCount, alookup, hk]
      · simp [bumpCalls, fnCount, alookup, hk, hg2] at ih ⊢
        exact ih

theorem list_set_same {l : List Prov} {i : Nat} {p : Prov}
    (h : l[i]? = some p) : l.set i p = l := by
  induction l generalizing i with
  | nil => simp at h
  | cons a rest ih =>
    cases i with
    | zero =>
      simp at h
      simp [h]
    | succ j =>
      simp at h
      simp [List.set, ih h]

theorem tableSetAt_self {tbl : List (Nat × List Prov)} {t i : Nat}
    {provs : List Prov} {p : Prov} (h : alookup tbl t = some provs)
    (hp : provs[i]? = some p) : tableSetAt tbl t i p = tbl := by
  induction tbl with
  | nil => simp [alookup] at h
  | cons e rest ih =>
    obtain ⟨k, v⟩ := e
    by_cases hk : k = t
    · subst hk
      simp [alookup] at h
      subst h
      simp [tableSetAt, list_set_same hp]
    · simp [alookup, hk] at h
      simp [tableSetAt, hk, ih h]

/-- One single-instance retrieval of a type whose last-registered
provider is a transient function-factory binding: the callable is
invoked once and its result is checked for null; the binding table is
unchanged. -/
theorem transient_fn_step (env : Env) (f t : Nat) (l : List Prov) (fid : Nat)
    (s : S) (h : alookup s.table t = some (l ++ [⟨false, .function fid, none⟩])) :
    getT env (f + 1) t s =
      (toRes (env.fn fid (fnCount s.calls fid)),
        { s with calls := bumpCalls s.calls fid }) := by
  have hlast : (l ++ [(⟨false, .function fid, none⟩ : Prov)]).getLast? =
      some ⟨false, .function fid, none⟩ := List.getLast?_concat _
  have hset : tableSetLast s.table t (⟨false, .function fid, none⟩ : Prov) = s.table :=
    tableSetLast_self h
  cases hv : env.fn fid (fnCount s.calls fid) with
  | none =>
    simp [getT, getUncheckedW, h, hlast, provGetW, buildW, hv, hset, toRes]
  | some v =>
    simp [getT, getUncheckedW, h, hlast, provGetW, buildW, hv, hset, toRes]

/-- First single-instance retrieval of a type whose last-registered
provider is a singleton function-factory binding with an empty cache:
the callable is invoked once, its result (null included) is written
into the cache slot, and the result is checked for null. -/
theorem singleton_fn_first_step (env : Env) (f t : Nat) (l : List Prov)
    (fid : Nat) (s : S)
    (h : alookup s.table t = some (l ++ [⟨true, .function fid, none⟩])) :
    getT env (f + 1) t s =
      (toRes (env.fn fid (fnCount s.calls fid)),
        { s with
            calls := bumpCalls s.calls fid,
            table := tableSetLast s.table t
              ⟨true, .function fid, some (env.fn fid (fnCount s.calls fid))⟩ }) := by
  have hlast : (l ++ [(⟨true, .function fid, none⟩ : Prov)]).getLast? =
      some ⟨true, .function fid, none⟩ := List.getLast?_concat _
  cases hv : env.fn fid (fnCount s.calls fid) with
  | none =>
    simp [getT, getUncheckedW, h, hlast, provGetW, buildW, hv, toRes]
  | some v =>
    simp [getT, getUncheckedW, h, hlast, provGetW, buildW, hv, toRes]

/-- Any single-instance retrieval of a type whose last-registered
provider is a singleton binding with a filled cache slot: the cached
value (null included) is returned with no factory invocation and the
state is left exactly as it was. -/
theorem singleton_cached_step (env : Env) (f t : Nat) (l : List Prov)
    (fk : FactoryK) (v : Option Nat) (s : S)
    (h : alookup s.table t = some (l ++ [⟨true, fk, some v⟩])) :
    getT env (f + 1) t s = (toRes v, s) := by
  have hlast : (l ++ [(⟨true, fk, some v⟩ : Prov)]).getLast? =
      some ⟨true, fk, some v⟩ := List.getLast?_concat _
  have hset : tableSetLast s.table t (⟨true, fk, some v⟩ : Prov) = s.table :=
    tableSetLast_self h
  cases v with
  | none => simp [getT, getUncheckedW, h, hlast, provGetW, hset, toRes]
  | some w => simp [getT, getUncheckedW, h, hlast, provGetW, hset, toRes]

/-- Iterating single-instance retrieval on a filled singleton cache:
every one of the N calls returns the cached value and the state never
changes. -/
theorem iter_cached (env : Env) (f t N : Nat) (l : List Prov) (fk : FactoryK)
    (v : Option Nat) (s : S)
    (h : alookup s.table t = some (l ++ [⟨true, fk, some v⟩])) :
    iterGet env N (f + 1) t s = (List.replicate N (toRes v), s) := by
  induction N with
  | zero => simp [iterGet]
  | succ n ih =>
    simp [iterGet, singleton_cached_step env f t l fk v s h, ih,
      List.replicate_succ]

/-- C1: for every type, single-instance retrieval either returns the
non-null instance the selected provider (or fallback construction)
produced, or fails; the Component Creation error is raised exactly
when that instance is null, or when a nested resolution already
raised it (injector.hpp lines 314 to 326). -/
theorem c1_get_raises_iff_null (env : Env) (f t : Nat) (s : S) :
    ((getT env (f + 1) t s).1 = .error .componentCreation ↔
      ((getUnchecked env f t s).1 = .ok none ∨
        (getUnchecked env f t s).1 = .error .componentCreation))
    ∧ (∀ v : Nat,
        (getT env (f + 1) t s).1 = .ok v ↔ (getUnchecked env f t s).1 = .ok (some v))
    ∧ (getT env (f + 1) t s).2 = (getUnchecked env f t s).2 := by
  have hg : getT env (f + 1) t s =
      (match getUncheckedW env (getT env f) t s with
        | (.error e, s1) => ((.error e : Except Err Nat), s1)
        | (.ok none, s1) => (.error .componentCreation, s1)
        | (.ok (some v), s1) => (.ok v, s1)) := rfl
  rcases hr : getUncheckedW env (getT env f) t s with ⟨r, s1⟩
  unfold getUnchecked
  rw [hr] at hg
  rw [hg, hr]
  cases r with
  | ok v => cases v <;> simp
  | error e => cases e <;> simp

/-- C2: single-instance retrieval selects exactly the last-registered
provider for the identity, whatever providers were registered before
it: with a transient function binding registered last, the outcome and
the state change depend only on that binding, and no other producer is
invoked (injector.hpp lines 385 to 400, it->second.back()). -/
theorem c2_last_provider_wins (env : Env) (f t : Nat) (l : List Prov)
    (fid g : Nat) (s : S)
    (h : alookup s.table t = some (l ++ [⟨false, .function fid, none⟩]))
    (hg : g ≠ fid) :
    getT env (f + 1) t s =
      (toRes (env.fn fid (fnCount s.calls fid)),
        { s with calls := bumpCalls s.calls fid })
    ∧ fnCount (getT env (f + 1) t s).2.calls g = fnCount s.calls g := by
  have hstep := transient_fn_step env f t l fid s h
  refine ⟨hstep, ?_⟩
  rw [hstep]
  exact fnCount_bumpCalls_other s.calls hg

/-- Witness for C2: two providers registered for identity 0; retrieval
invokes only the second (callable 6, producing instance 9), leaving
the count of the first callable at zero. -/
theorem c2_last_provider_wins_witness :
    getT (⟨fun _ _ => some 9, fun _ => []⟩ : Env) 1 0
        (addFn 0 6 (addFn 0 5 S0)) =
      (.ok 9, { addFn 0 6 (addFn 0 5 S0) with calls := [(6, 1)] })
    ∧ fnCount (getT (⟨fun _ _ => some 9, fun _ => []⟩ : Env) 1 0
        (addFn 0 6 (addFn 0 5 S0))).2.calls 5 = 0 := by
  have h := c2_last_provider_wins (⟨fun _ _ => some 9, fun _ => []⟩ : Env) 0 0
    [⟨false, .function 5, none⟩] 6 5 (addFn 0 6 (addFn 0 5 S0))
    (by decide) (by decide)
  simpa using h

/-- C3: for a singleton function binding, N consecutive retrievals
(N at least 1) all yield the same outcome, the producer is invoked
exactly once, and the produced value, null included, is written to the
cache slot and never recomputed (spec section 4.3; storage.hpp is
absent from the sources, so singleton storage is modelled from the
spec). -/
theorem c3_singleton_caches_once (env : Env) (f N t : Nat) (l : List Prov)
    (fid : Nat) (s : S) (hN : 1 ≤ N)
    (h : alookup s.table t = some (l ++ [⟨true, .function fid, none⟩])) :
    (iterGet env N (f + 1) t s).1 =
        List.replicate N (toRes (env.fn fid (fnCount s.calls fid)))
    ∧ fnCount (iterGet env N (f + 1) t s).2.calls fid = fnCount s.calls fid + 1
    ∧ alookup (iterGet env N (f + 1) t s).2.table t =
        some (l ++ [⟨true, .function fid, some (env.fn fid (fnCount s.calls fid))⟩]) := by
  obtain ⟨M, rfl⟩ : ∃ M, N = M + 1 := ⟨N - 1, by omega⟩
  have hfirst := singleton_fn_first_step env f t l fid s h
  have hlook1 : alookup
      (tableSetLast s.table t
        ⟨true, .function fid, some (env.fn fid (fnCount s.calls fid))⟩) t =
      some (l ++ [⟨true, .function fid, some (env.fn fid (fnCount s.calls fid))⟩]) := by
    rw [alookup_tableSetLast_self _ h]
    simp [List.dropLast_concat]
  have hrest := iter_cached env f t M l (.function fid)
    (env.fn fid (fnCount s.calls fid))
    { s with
        calls := bumpCalls s.calls fid,
        table := tableSetLast s.table t
          ⟨true, .function fid, some (env.fn fid (fnCount s.calls fid))⟩ }
    hlook1
  refine ⟨?_, ?_, ?_⟩
  · simp [iterGet, hfirst, hrest, List.replicate_succ]
  · simp [iterGet, hfirst, hrest, fnCount_bumpCalls_self]
  · simp [iterGet, hfirst, hrest, hlook1]

/-- Witness for C3: a singleton function binding for identity 0 whose
callable produces instance 3 on its k-th call via 3 + k; three
retrievals all return instance 3, the callable runs once, and the
cache holds 3. -/
theorem c3_singleton_caches_once_witness :
    (iterGet (⟨fun _ k => some (3 + k), fun _ => []⟩ : Env) 3 1 0
        (add_singletonFn 0 4 S0)).1 = [.ok 3, .ok 3, .ok 3]
    ∧ fnCount (iterGet (⟨fun _ k => some (3 + k), fun _ => []⟩ : Env) 3 1 0
        (add_singletonFn 0 4 S0)).2.calls 4 = 1
    ∧ alookup (iterGet (⟨fun _ k => some (3 + k), fun _ => []⟩ : Env) 3 1 0
        (add_singletonFn 0 4 S0)).2.table 0 =
      some [⟨true, .function 4, some (some 3)⟩] := by
  have h := c3_singleton_caches_once (⟨fun _ k => some (3 + k), fun _ => []⟩ : Env)
    0 3 0 [] 4 (add_singletonFn 0 4 S0) (by decide) (by decide)
  simpa using h

/-- C4 counterexample: the claim says every transient binding yields
pairwise-distinct instances over consecutive retrievals, but
Injector::add<Base, Derived>(data) (injector.hpp lines 286 to 293)
wraps a constant factory in the transient InstanceStorage, and two
consecutive retrievals of such a binding return the same instance
(here instance 7 twice), so the instances are not pairwise
distinct. -/
theorem c4_transient_distinct_counterexample :
    (iterGet (⟨fun _ _ => none, fun _ => []⟩ : Env) 2 1 0
        (addConstBD 0 (some 7) S0)).1 = [.ok 7, .ok 7] := by
  rfl

/-- C4 (amended): for a transient function binding, N consecutive
retrievals invoke the producer exactly N times, never cache (the
binding table is unchanged), and the i-th outcome is exactly the
producer result of its i-th invocation — so the instances are pairwise
distinct precisely when the producer returns a fresh instance on each
call, which a constant-value producer does not (spec sections 4.2 and
4.3; storage.hpp and factory.hpp are absent from the sources, so
transient storage and factories are modelled from the spec). -/
theorem c4_transient_amended (env : Env) (f N t : Nat) (l : List Prov)
    (fid : Nat) (s : S)
    (h : alookup s.table t = some (l ++ [⟨false, .function fid, none⟩])) :
    (iterGet env N (f + 1) t s).1 =
        (List.range N).map (fun i => toRes (env.fn fid (fnCount s.calls fid + i)))
    ∧ (iterGet env N (f + 1) t s).2.table = s.table
    ∧ fnCount (iterGet env N (f + 1) t s).2.calls fid = fnCount s.calls fid + N := by
  induction N generalizing s with
  | zero => simp [iterGet]
  | succ M ih =>
    have hstep := transient_fn_step env f t l fid s h
    have h1 : alookup (S.mk s.table (bumpCalls s.calls fid) s.fresh).table t =
        some (l ++ [⟨false, .function fid, none⟩]) := h
    rcases hM : iterGet env M (f + 1) t (S.mk s.table (bumpCalls s.calls fid) s.fresh)
      with ⟨rs, s2⟩
    obtain ⟨ih1, ih2, ih3⟩ := ih (S.mk s.table (bumpCalls s.calls fid) s.fresh) h1
    rw [hM] at ih1 ih2 ih3
    have hc1 : fnCount (bumpCalls s.calls fid) fid = fnCount s.calls fid + 1 :=
      fnCount_bumpCalls_self s.calls fid
    have hun : iterGet env (M + 1) (f + 1) t s =
        (toRes (env.fn fid (fnCount s.calls fid)) :: rs, s2) := by
      simp [iterGet, hstep, hM]
    rw [hun]
    refine ⟨?_, ?_, ?_⟩
    · show toRes (env.fn fid (fnCount s.calls fid)) :: rs = _
      simp only [hc1] at ih1
      rw [ih1, List.range_succ_eq_map, List.map_cons, List.map_map]
      simp only [Nat.add_zero]
      congr 1
      apply List.map_congr_left
      intro a _
      have harith : fnCount s.calls fid + 1 + a = fnCount s.calls fid + (a + 1) := by
        omega
      simp [Function.comp, harith, Nat.succ_eq_add_one]
    · show s2.table = s.table
      exact ih2
    · show fnCount s2.calls fid = fnCount s.calls fid + (M + 1)
      have ih3a : fnCount s2.calls fid = fnCount (bumpCalls s.calls fid) fid + M := ih3
      rw [hc1] at ih3a
      omega

/-- Witness for the amended C4: a transient function binding for
identity 0 whose callable returns instance 10 + k on its k-th call;
three retrievals give the three pairwise-distinct instances 10, 11,
12, the callable runs three times, and the table is unchanged. -/
theorem c4_transient_amended_witness :
    (iterGet (⟨fun _ k => some (10 + k), fun _ => []⟩ : Env) 3 1 0
        (addFn 0 4 S0)).1 = [.ok 10, .ok 11, .ok 12]
    ∧ (iterGet (⟨fun _ k => some (10 + k), fun _ => []⟩ : Env) 3 1 0
        (addFn 0 4 S0)).2.table = (addFn 0 4 S0).table
    ∧ fnCount (iterGet (⟨fun _ k => some (10 + k), fun _ => []⟩ : Env) 3 1 0
        (addFn 0 4 S0)).2.calls 4 = 3 := by
  have h := c4_transient_amended (⟨fun _ k => some (10 + k), fun _ => []⟩ : Env)
    0 3 0 [] 4 (addFn 0 4 S0) (by decide)
  simpa [List.range_succ] using h

/-- A provider whose factory is not the constructor variant always
produces a result without raising: constant and function factories
never throw (the function result may be null, but null is not an
error on this path). -/
theorem provGetW_nonCtor (env : Env) (get1 : Resolver) (p : Prov) (s : S)
    (h : p.factory.isCtor = false) :
    ∃ v p1 s1, provGetW env get1 p s = (.ok v, p1, s1) := by
  rcases p with ⟨sg, fk, ch⟩
  cases fk with
  | ctor ty => simp [FactoryK.isCtor] at h
  | constant d => cases sg <;> rcases ch with _ | r <;> exact ⟨_, _, _, rfl⟩
  | function fid => cases sg <;> rcases ch with _ | r <;> exact ⟨_, _, _, rfl⟩

/-- Iterating the collection loop over providers none of which uses a
constructor factory yields exactly one produced value per provider,
with no error. -/
theorem runProvsW_nonCtor (env : Env) (get1 : Resolver) (t : Nat) :
    ∀ (ps : List Prov) (i : Nat) (s : S), (∀ p ∈ ps, p.factory.isCtor = false) →
      ∃ vals s1, runProvsW env get1 t i ps s = (.ok vals, s1)
        ∧ vals.length = ps.length := by
  intro ps
  induction ps with
  | nil => exact fun i s _ => ⟨[], s, rfl, rfl⟩
  | cons p rest ih =>
    intro i s h
    obtain ⟨v, p1, s1, hp⟩ :=
      provGetW_nonCtor env get1 p s (h p (List.mem_cons_self _ _))
    obtain ⟨vals, s2, hrun, hlen⟩ :=
      ih (i + 1) { s1 with table := tableSetAt s1.table t i p1 }
        (fun q hq => h q (List.mem_cons_of_mem _ hq))
    refine ⟨v :: vals, s2, ?_, by simp [hlen]⟩
    simp [runProvsW, hp, hrun]

/-- C5: collection retrieval returns one instance per registered
provider, produced in registration order; an unregistered identity
yields the empty sequence with no fallback construction, no state
change and no Component Creation error; null results are placed in
the sequence without error (injector.hpp lines 344 to 368). -/
theorem c5_collection_in_order (env : Env) (f t u : Nat) (sA sB sC : S)
    (provs : List Prov) (f1 f2 : Nat)
    (hA : alookup sA.table t = none)
    (hB : alookup sB.table u = some provs)
    (hBn : ∀ p ∈ provs, p.factory.isCtor = false)
    (hC : alookup sC.table t =
      some [⟨false, .function f1, none⟩, ⟨false, .function f2, none⟩])
    (hf : f2 ≠ f1) :
    getVec env f t sA = (.ok [], sA)
    ∧ (∃ vals s1, getVec env f u sB = (.ok vals, s1) ∧ vals.length = provs.length)
    ∧ getVec env f t sC =
        (.ok [env.fn f1 (fnCount sC.calls f1), env.fn f2 (fnCount sC.calls f2)],
          { sC with calls := bumpCalls (bumpCalls sC.calls f1) f2 }) := by
  refine ⟨?_, ?_, ?_⟩
  · simp [getVec, hA]
  · obtain ⟨vals, s1, hrun, hlen⟩ :=
      runProvsW_nonCtor env (getT env f) u provs 0 sB hBn
    exact ⟨vals, s1, by simp [getVec, hB, hrun], hlen⟩
  · have hsetAt0 : tableSetAt sC.table t 0 (⟨false, .function f1, none⟩ : Prov) =
        sC.table := tableSetAt_self hC rfl
    have hsetAt1 : tableSetAt sC.table t 1 (⟨false, .function f2, none⟩ : Prov) =
        sC.table := tableSetAt_self hC rfl
    have hc2 : fnCount (bumpCalls sC.calls f1) f2 = fnCount sC.calls f2 :=
      fnCount_bumpCalls_other _ hf
    simp [getVec, hC, runProvsW, provGetW, buildW, hsetAt0, hsetAt1, hc2]

/-- Witness for C5: an empty registry yields the empty sequence for
identity 1; a registry with two function providers for identity 0
(callables 1 and 2, producing 10 and 20) yields exactly those two
instances in registration order. -/
theorem c5_collection_in_order_witness :
    getVec (⟨fun fid _ => some (fid * 10), fun _ => []⟩ : Env) 0 1 S0 = (.ok [], S0)
    ∧ (∃ vals s1,
        getVec (⟨fun fid _ => some (fid * 10), fun _ => []⟩ : Env) 0 0
            (addFn 0 2 (addFn 0 1 S0)) = (.ok vals, s1)
          ∧ vals.length =
            ([⟨false, .function 1, none⟩, ⟨false, .function 2, none⟩] : List Prov).length)
    ∧ getVec (⟨fun fid _ => some (fid * 10), fun _ => []⟩ : Env) 0 0
        (addFn 0 2 (addFn 0 1 S0)) =
      (.ok [some 10, some 20],
        { addFn 0 2 (addFn 0 1 S0) with calls := [(1, 1), (2, 1)] }) := by
  have h := c5_collection_in_order (⟨fun fid _ => some (fid * 10), fun _ => []⟩ : Env)
    0 0 0 S0 (addFn 0 2 (addFn 0 1 S0)) (addFn 0 2 (addFn 0 1 S0))
    [⟨false, .function 1, none⟩, ⟨false, .function 2, none⟩] 1 2
    (by decide) (by decide) (by decide) (by decide) (by decide)
  simpa using h

/-- C6: when the requested identity has no entry in the binding table,
single-instance retrieval falls back to direct construction through a
constructor factory (injector.hpp lines 398 to 399); a type with no
constructor parameters is then constructed outright, and a
one-parameter type has its parameter resolved recursively from the
same registry, invoking the producer the parameter type is bound to
(detail/argument_resolver.hpp lines 46 to 50). -/
theorem c6_unregistered_falls_back (env : Env) (f tA tB tC : Nat)
    (s sB sC : S) (p fid w : Nat) (l : List Prov)
    (hA : alookup s.table tA = none)
    (hB : alookup sB.table tB = none) (hBp : env.ctorParams tB = [])
    (hC : alookup sC.table tC = none) (hCp : env.ctorParams tC = [p])
    (hCl : alookup sC.table p = some (l ++ [⟨false, .function fid, none⟩]))
    (hCw : env.fn fid (fnCount sC.calls fid) = some w) :
    getUnchecked env f tA s = build env f (.ctor tA) s
    ∧ getT env (f + 1) tB sB = (.ok sB.fresh, { sB with fresh := sB.fresh + 1 })
    ∧ getT env (f + 2) tC sC =
        (.ok sC.fresh,
          { sC with calls := bumpCalls sC.calls fid, fresh := sC.fresh + 1 }) := by
  refine ⟨?_, ?_, ?_⟩
  · simp [getUnchecked, build, getUncheckedW, hA]
  · simp [getT, getUncheckedW, buildW, hB, hBp, resolveParamsW]
  · have hstep := transient_fn_step env f p l fid sC hCl
    rw [hCw] at hstep
    have hres : resolveParamsW (getT env (f + 1)) [p] sC =
        (.ok [w], S.mk sC.table (bumpCalls sC.calls fid) sC.fresh) := by
      simp [resolveParamsW, hstep, toRes]
    have hbuild : buildW env (getT env (f + 1)) (.ctor tC) sC =
        (.ok (some sC.fresh), S.mk sC.table (bumpCalls sC.calls fid) (sC.fresh + 1)) := by
      simp [buildW, hCp, hres]
    have hunch : getUncheckedW env (getT env (f + 1)) tC sC =
        (.ok (some sC.fresh), S.mk sC.table (bumpCalls sC.calls fid) (sC.fresh + 1)) := by
      simp [getUncheckedW, hC, hbuild]
    have hg : getT env (f + 2) tC sC =
        (match getUncheckedW env (getT env (f + 1)) tC sC with
          | (.error e, s1) => ((.error e : Except Err Nat), s1)
          | (.ok none, s1) => (.error .componentCreation, s1)
          | (.ok (some v), s1) => (.ok v, s1)) := rfl
    rw [hg, hunch]

/-- Witness for C6: in a registry whose only binding is a function
provider for identity 1 (producing instance 42), the unregistered
identity 0, whose constructor takes one parameter of type 1, is
retrieved via fallback construction: the producer for 1 runs once and
a fresh instance 0 is constructed. -/
theorem c6_unregistered_falls_back_witness :
    getUnchecked (⟨fun _ _ => some 42, fun t => if t = 0 then [1] else []⟩ : Env)
        0 0 (addFn 1 5 S0) =
      build (⟨fun _ _ => some 42, fun t => if t = 0 then [1] else []⟩ : Env)
        0 (.ctor 0) (addFn 1 5 S0)
    ∧ getT (⟨fun _ _ => some 42, fun t => if t = 0 then [1] else []⟩ : Env)
        1 2 (addFn 1 5 S0) =
      (.ok (addFn 1 5 S0).fresh, { addFn 1 5 S0 with fresh := (addFn 1 5 S0).fresh + 1 })
    ∧ getT (⟨fun _ _ => some 42, fun t => if t = 0 then [1] else []⟩ : Env)
        2 0 (addFn 1 5 S0) =
      (.ok (addFn 1 5 S0).fresh,
        { addFn 1 5 S0 with
            calls := bumpCalls (addFn 1 5 S0).calls 5,
            fresh := (addFn 1 5 S0).fresh + 1 }) := by
  have h := c6_unregistered_falls_back
    (⟨fun _ _ => some 42, fun t => if t = 0 then [1] else []⟩ : Env)
    0 0 2 0 (addFn 1 5 S0) (addFn 1 5 S0) (addFn 1 5 S0) 1 5 42 []
    (by decide) (by decide) (by decide) (by decide) (by decide) (by decide) rfl
  simpa using h

/-- Appending a provider for a key makes lookup of that key succeed,
whether or not the key existed. -/
theorem alookup_tableAppend_isSome (tbl : List (Nat × List Prov)) (t : Nat)
    (p : Prov) : (alookup (tableAppend tbl t p) t).isSome = true := by
  induction tbl with
  | nil => simp [tableAppend, alookup]
  | cons e rest ih =>
    obtain ⟨k, v⟩ := e
    by_cases hk : k = t
    · subst hk
      simp [tableAppend, alookup]
    · simp [tableAppend, alookup, hk, ih]

/-- Appending a provider preserves the invariant that every key of
the binding table holds a nonempty provider list. -/
theorem tableAppend_nonempty (tbl : List (Nat × List Prov)) (t : Nat) (p : Prov)
    (h : ∀ e ∈ tbl, e.2 ≠ []) : ∀ e ∈ tableAppend tbl t p, e.2 ≠ [] := by
  induction tbl with
  | nil =>
    intro e he
    simp [tableAppend] at he
    subst he
    simp
  | cons e0 rest ih =>
    obtain ⟨k, v⟩ := e0
    by_cases hk : k = t
    · subst hk
      intro e he
      simp [tableAppend] at he
      rcases he with he | he
      · subst he; simp
      · exact h e (List.mem_cons_of_mem _ he)
    · intro e he
      simp [tableAppend, hk] at he
      rcases he with he | he
      · subst he
        exact h (k, v) (List.mem_cons_self _ _)
      · exact ih (fun e2 he2 => h e2 (List.mem_cons_of_mem _ he2)) e he

/-- C7: contains is true exactly when the identity has at least one
registered provider (for well-formed states, key presence in the
table coincides with having one or more providers); it is false on
the empty Injector, becomes true immediately after any registration
for the identity, and registration preserves well-formedness.
In the embedding contains is a pure function of the state, mirroring
the const noexcept member (injector.hpp lines 378 to 382): it cannot
construct, modify the registry, or throw. -/
theorem c7_contains_iff_provider (s s2 : S) (t : Nat) (p : Prov)
    (h : WF s) (h2 : WF s2) :
    (contains s t = true ↔ ∃ l, alookup s.table t = some l ∧ l ≠ [])
    ∧ contains S0 t = false
    ∧ contains (addRegistration t p s2) t = true
    ∧ WF (addRegistration t p s2) := by
  refine ⟨?_, rfl, ?_, ?_⟩
  · constructor
    · intro hc
      rcases hl : alookup s.table t with _ | l
      · rw [contains, hl] at hc
        simp at hc
      · exact ⟨l, rfl, h _ (alookup_mem hl)⟩
    · rintro ⟨l, hl, _⟩
      rw [contains, hl]
      rfl
  · exact alookup_tableAppend_isSome s2.table t p
  · exact tableAppend_nonempty s2.table t p h2

/-- Witness for C7: the registry with one binding for identity 0 is
well-formed; contains is true on it for identity 0 with the provider
list as evidence, false on the empty registry, true right after a
further registration, which stays well-formed. -/
theorem c7_contains_iff_provider_witness :
    (contains (add 0 S0) 0 = true ↔
      ∃ l, alookup (add 0 S0).table 0 = some l ∧ l ≠ [])
    ∧ contains S0 0 = false
    ∧ contains (addRegistration 0 ⟨true, .ctor 1, none⟩ (add 0 S0)) 0 = true
    ∧ WF (addRegistration 0 ⟨true, .ctor 1, none⟩ (add 0 S0)) := by
  exact c7_contains_iff_provider (add 0 S0) (add 0 S0) 0 ⟨true, .ctor 1, none⟩
    (by unfold WF; decide) (by unfold WF; decide)

/-- C8: every only-if-absent registration variant is a no-op when the
target identity already has a binding: the state, and so the binding
table and every invocation counter, is unchanged and the supplied
producer is never invoked (injector.hpp try_add and try_add_singleton
overloads). -/
theorem c8_try_add_noop (s : S) (t d fid : Nat) (data : Option Nat)
    (h : contains s t = true) :
    try_add t s = s
    ∧ try_addBD t d s = s
    ∧ try_addFn t fid s = s
    ∧ try_addFnBD t fid s = s
    ∧ try_add_singleton t s = s
    ∧ try_add_singletonBD t d s = s
    ∧ try_add_singletonFn t fid s = s
    ∧ try_add_singletonFnBD t fid s = s
    ∧ try_addConstBD t data s = s := by
  refine ⟨?_, ?_, ?_, ?_, ?_, ?_, ?_, ?_, ?_⟩ <;>
    simp [try_add, try_addBD, try_addFn, try_addFnBD, try_add_singleton,
      try_add_singletonBD, try_add_singletonFn, try_add_singletonFnBD,
      try_addConstBD, h]

/-- Witness for C8: with identity 0 already bound, every try variant
leaves the registry exactly as it was. -/
theorem c8_try_add_noop_witness :
    try_add 0 (add 0 S0) = add 0 S0
    ∧ try_addBD 0 1 (add 0 S0) = add 0 S0
    ∧ try_addFn 0 5 (add 0 S0) = add 0 S0
    ∧ try_addFnBD 0 5 (add 0 S0) = add 0 S0
    ∧ try_add_singleton 0 (add 0 S0) = add 0 S0
    ∧ try_add_singletonBD 0 1 (add 0 S0) = add 0 S0
    ∧ try_add_singletonFn 0 5 (add 0 S0) = add 0 S0
    ∧ try_add_singletonFnBD 0 5 (add 0 S0) = add 0 S0
    ∧ try_addConstBD 0 (some 3) (add 0 S0) = add 0 S0 := by
  exact c8_try_add_noop (add 0 S0) 0 1 5 (some 3) (by decide)

/-- C9: the wrapper retrieval overloads.  The shared_ptr overload is
viable exactly for shared_ptr arguments and its body delegates to
retrieval of the element type, identically.  The const-reference
overload, however, is dead code: its enable_if condition tests
is_const_v of the trait class std::remove_reference of T itself
(the source omits ::type), which no type satisfies, so the overload is
never viable; a call with a const reference argument instead resolves
to the plain single-instance overload, whose return type
std::shared_ptr of a reference type cannot be instantiated — the call
does not compile and no delegation to plain retrieval happens
(injector.hpp lines 328 to 342). -/
theorem c9_wrapper_delegation :
    (∀ t : Ty, guardConstRef t = false)
    ∧ (∀ u : Ty, viableOverloads (.sharedPtr u) = [.sharedDelegate u])
    ∧ (∀ t : Ty, viableOverloads (.ref (.constQ t)) = [.single]
        ∧ sharedPtrInstantiable (.ref (.constQ t)) = false) := by
  refine ⟨?_, ?_, ?_⟩
  · intro t
    simp [guardConstRef, is_const_v]
  · intro u
    rfl
  · intro t
    exact ⟨rfl, rfl⟩

/-- Rewriting one provider in place at an index never changes the
per-key skeleton of the table. -/
theorem tskel_tableSetAt (tbl : List (Nat × List Prov)) (t i : Nat) (p : Prov) :
    tskel (tableSetAt tbl t i p) = tskel tbl := by
  induction tbl with
  | nil => rfl
  | cons e rest ih =>
    obtain ⟨k, v⟩ := e
    by_cases hk : k = t
    · subst hk
      simp [tableSetAt, tskel]
    · simp only [tableSetAt, if_neg hk, tskel, List.map_cons]
      exact congrArg _ ih

/-- Rewriting the last provider of a key that holds a nonempty list
never changes the per-key skeleton of the table. -/
theorem tskel_tableSetLast {tbl : List (Nat × List Prov)} {t : Nat}
    {l : List Prov} (p : Prov) (h : alookup tbl t = some l) (hne : l ≠ []) :
    tskel (tableSetLast tbl t p) = tskel tbl := by
  induction tbl with
  | nil => rfl
  | cons e rest ih =>
    obtain ⟨k, v⟩ := e
    by_cases hk : k = t
    · subst hk
      simp [alookup] at h
      have hnev : v ≠ [] := by rw [h]; exact hne
      have hpos : 0 < v.length := List.length_pos.mpr hnev
      have hlen : (v.dropLast ++ [p]).length = v.length := by
        simp [List.length_dropLast]
        omega
      simp [tableSetLast, tskel, hlen]
    · simp [alookup, hk] at h
      simp only [tableSetLast, if_neg hk, tskel, List.map_cons]
      exact congrArg _ (ih h)

/-- Tables with the same skeleton have the same set of keys. -/
theorem tskel_alookup_isSome {t1 t2 : List (Nat × List Prov)}
    (h : tskel t1 = tskel t2) (u : Nat) :
    (alookup t1 u).isSome = (alookup t2 u).isSome := by
  induction t1 generalizing t2 with
  | nil =>
    have h2 : t2 = [] := by
      have := h.symm
      simpa [tskel] using this
    subst h2
    rfl
  | cons e rest ih =>
    rcases t2 with _ | ⟨e2, rest2⟩
    · simp [tskel] at h
    · obtain ⟨k, v⟩ := e
      obtain ⟨k2, v2⟩ := e2
      simp [tskel] at h
      obtain ⟨⟨hk, hlen⟩, hrest⟩ := h
      subst hk
      by_cases hu : k = u
      · simp [alookup, hu]
      · simp only [alookup, if_neg hu]
        exact ih (by simpa [tskel] using hrest)

/-- Tables with the same skeleton hold provider lists of the same
length at every key. -/
theorem tskel_alookup_some {t1 t2 : List (Nat × List Prov)}
    (h : tskel t1 = tskel t2) {u : Nat} {l : List Prov}
    (hl : alookup t2 u = some l) :
    ∃ l2, alookup t1 u = some l2 ∧ l2.length = l.length := by
  induction t1 generalizing t2 with
  | nil =>
    have h2 : t2 = [] := by
      have := h.symm
      simpa [tskel] using this
    subst h2
    simp [alookup] at hl
  | cons e rest ih =>
    rcases t2 with _ | ⟨e2, rest2⟩
    · simp [alookup] at hl
    · obtain ⟨k, v⟩ := e
      obtain ⟨k2, v2⟩ := e2
      simp [tskel] at h
      obtain ⟨⟨hk, hlen⟩, hrest⟩ := h
      subst hk
      by_cases hu : k = u
      · simp [alookup, hu] at hl ⊢
        subst hl
        exact hlen
      · simp only [alookup, if_neg hu] at hl ⊢
        exact ih (by simpa [tskel] using hrest) hl

/-- Recursive parameter resolution preserves the table skeleton
whenever the resolver it calls into does. -/
theorem resolveParamsW_tskel (g : Resolver)
    (hg : ∀ p s, tskel ((g p s).2).table = tskel s.table) :
    ∀ (ps : List Nat) (s : S),
      tskel ((resolveParamsW g ps s).2).table = tskel s.table := by
  intro ps
  induction ps with
  | nil => intro s; rfl
  | cons p rest ih =>
    intro s
    rcases hp : g p s with ⟨r, s1⟩
    have h1 : tskel s1.table = tskel s.table := by
      have hx := hg p s
      rw [hp] at hx
      exact hx
    cases r with
    | error e =>
      simp [resolveParamsW, hp]
      exact h1
    | ok v =>
      rcases hr : resolveParamsW g rest s1 with ⟨r2, s2⟩
      have h2 : tskel s2.table = tskel s1.table := by
        have hx := ih s1
        rw [hr] at hx
        exact hx
      cases r2 with
      | ok vs =>
        simp [resolveParamsW, hp, hr]
        rw [h2, h1]
      | error e =>
        simp [resolveParamsW, hp, hr]
        rw [h2, h1]

/-- Factory build preserves the table skeleton whenever the resolver
does: only the calls counter, the fresh counter and provider caches
may change. -/
theorem buildW_tskel (env : Env) (g : Resolver)
    (hg : ∀ p s, tskel ((g p s).2).table = tskel s.table) (k : FactoryK) (s : S) :
    tskel ((buildW env g k s).2).table = tskel s.table := by
  cases k with
  | constant d => rfl
  | function fid => rfl
  | ctor ty =>
    rcases hr : resolveParamsW g (env.ctorParams ty) s with ⟨r, s1⟩
    have h1 : tskel s1.table = tskel s.table := by
      have hx := resolveParamsW_tskel g hg (env.ctorParams ty) s
      rw [hr] at hx
      exact hx
    cases r with
    | ok a =>
      simp [buildW, hr]
      exact h1
    | error e =>
      simp [buildW, hr]
      exact h1

/-- Provider retrieval preserves the table skeleton whenever the
resolver does. -/
theorem provGetW_tskel (env : Env) (g : Resolver)
    (hg : ∀ p s, tskel ((g p s).2).table = tskel s.table) (p : Prov) (s : S) :
    tskel ((provGetW env g p s).2.2).table = tskel s.table := by
  rcases p with ⟨sg, fk, ch⟩
  cases sg with
  | true =>
    rcases ch with _ | r
    · rcases hb : buildW env g fk s with ⟨r, s1⟩
      have h1 : tskel s1.table = tskel s.table := by
        have hx := buildW_tskel env g hg fk s
        rw [hb] at hx
        exact hx
      cases r <;> simp [provGetW, hb] <;> exact h1
    · simp [provGetW]
  | false =>
    rcases hb : buildW env g fk s with ⟨r, s1⟩
    have h1 : tskel s1.table = tskel s.table := by
      have hx := buildW_tskel env g hg fk s
      rw [hb] at hx
      exact hx
    simp [provGetW, hb]
    exact h1

/-- Unchecked retrieval preserves the table skeleton whenever the
resolver does: the only table write is putting the selected provider
back in the slot it came from. -/
theorem getUncheckedW_tskel (env : Env) (g : Resolver)
    (hg : ∀ p s, tskel ((g p s).2).table = tskel s.table) (t : Nat) (s : S) :
    tskel ((getUncheckedW env g t s).2).table = tskel s.table := by
  rcases hl : alookup s.table t with _ | provs
  · rcases hb : buildW env g (.ctor t) s with ⟨r, s1⟩
    have h1 : tskel s1.table = tskel s.table := by
      have hx := buildW_tskel env g hg (.ctor t) s
      rw [hb] at hx
      exact hx
    simp [getUncheckedW, hl, hb]
    exact h1
  · rcases hlast : provs.getLast? with _ | p
    · rcases hb : buildW env g (.ctor t) s with ⟨r, s1⟩
      have h1 : tskel s1.table = tskel s.table := by
        have hx := buildW_tskel env g hg (.ctor t) s
        rw [hb] at hx
        exact hx
      simp [getUncheckedW, hl, hlast, hb]
      exact h1
    · rcases hp : provGetW env g p s with ⟨r, p1, s1⟩
      have h1 : tskel s1.table = tskel s.table := by
        have hx := provGetW_tskel env g hg p s
        rw [hp] at hx
        exact hx
      have hne : provs ≠ [] := by
        intro hc
        subst hc
        simp at hlast
      obtain ⟨l2, hl2, hlen2⟩ := tskel_alookup_some h1 hl
      have hne2 : l2 ≠ [] := by
        intro hc
        subst hc
        simp at hlen2
        exact hne (List.length_eq_zero.mp hlen2.symm)
      have hsl : tskel (tableSetLast s1.table t p1) = tskel s1.table :=
        tskel_tableSetLast p1 hl2 hne2
      simp [getUncheckedW, hl, hlast, hp]
      rw [hsl, h1]

/-- Single-instance retrieval, at any fuel, preserves the table
skeleton: it never adds or removes a provider for any identity. -/
theorem getT_tskel (env : Env) : ∀ (f t : Nat) (s : S),
    tskel ((getT env f t s).2).table = tskel s.table := by
  intro f
  induction f with
  | zero => intro t s; rfl
  | succ f ih =>
    intro t s
    rcases hu : getUncheckedW env (getT env f) t s with ⟨r, s1⟩
    have h1 : tskel s1.table = tskel s.table := by
      have hx := getUncheckedW_tskel env (getT env f) ih t s
      rw [hu] at hx
      exact hx
    have hg : getT env (f + 1) t s =
        (match getUncheckedW env (getT env f) t s with
          | (.error e, s1) => ((.error e : Except Err Nat), s1)
          | (.ok none, s1) => (.error .componentCreation, s1)
          | (.ok (some v), s1) => (.ok v, s1)) := rfl
    rw [hu] at hg
    cases r with
    | error e =>
      rw [hg]
      exact h1
    | ok v =>
      cases v
      · rw [hg]
        exact h1
      · rw [hg]
        exact h1

/-- C10: when single-instance retrieval of an unregistered identity
goes through the fallback construction path, the binding table keeps
its exact per-key skeleton — no provider is added for any identity —
and contains still answers false for the retrieved identity and is
unchanged for every other identity (injector.hpp lines 385 to 400:
the fallback builds a stack-local factory and never touches
m_Registrations). -/
theorem c10_fallback_adds_no_binding (env : Env) (f t u : Nat) (s : S)
    (h : alookup s.table t = none) :
    tskel ((getT env f t s).2).table = tskel s.table
    ∧ contains (getT env f t s).2 t = false
    ∧ contains (getT env f t s).2 u = contains s u := by
  have hsk := getT_tskel env f t s
  refine ⟨hsk, ?_, ?_⟩
  · show (alookup ((getT env f t s).2).table t).isSome = false
    rw [tskel_alookup_isSome hsk t, h]
    rfl
  · exact tskel_alookup_isSome hsk u

/-- Witness for C10: retrieving the unregistered identity 0 from a
registry that only binds identity 1 succeeds by fallback construction
and leaves the skeleton, the absence of 0 and the presence of 1 all
intact. -/
theorem c10_fallback_adds_no_binding_witness :
    tskel ((getT (⟨fun _ _ => none, fun _ => []⟩ : Env) 1 0
        (addFn 1 5 S0)).2).table = tskel (addFn 1 5 S0).table
    ∧ contains (getT (⟨fun _ _ => none, fun _ => []⟩ : Env) 1 0
        (addFn 1 5 S0)).2 0 = false
    ∧ contains (getT (⟨fun _ _ => none, fun _ => []⟩ : Env) 1 0
        (addFn 1 5 S0)).2 1 = contains (addFn 1 5 S0) 1 := by
  exact c10_fallback_adds_no_binding (⟨fun _ _ => none, fun _ => []⟩ : Env)
    1 0 1 (addFn 1 5 S0) (by decide)

end Injector
